import Mathlib

/-!
Shallow embedding of the async/caching layer of the AIWriteX repository:
`src/ai_write_x/utils/async_task_manager.py`, `memory_pool.py`,
`api_optimizer.py` and `connection_pool_manager.py`.

Python dicts are modelled as insertion-ordered association lists,
strings as Lean `String`/`List Char`, floats used as wall-clock times
as `Nat` (all source comparisons are order comparisons between
non-negative times, which `Nat` preserves), and exceptions as a
(type-name, message) pair.  Each Lean definition mirrors one Python
function; coroutine behaviour (the value returned or exception raised,
and the running duration) is passed explicitly where the source awaits
a coroutine.
-/

namespace AIWriteX

/-- Python `dict` lookup `d.get(k)` on an insertion-ordered association list. -/
def dictGet {κ α : Type} [DecidableEq κ] : List (κ × α) → κ → Option α
  | [], _ => none
  | (k, v) :: rest, key => if k = key then some v else dictGet rest key

/-- Python `dict` assignment `d[k] = v`: replaces in place, or appends a new key
(insertion order preserved, as CPython dicts do). -/
def dictSet {κ α : Type} [DecidableEq κ] : List (κ × α) → κ → α → List (κ × α)
  | [], key, v => [(key, v)]
  | (k, w) :: rest, key, v =>
    if k = key then (key, v) :: rest else (k, w) :: dictSet rest key v

/-- Python `del d[k]` (removes the unique binding of `k`; association lists
built through `dictSet` never hold duplicate keys). -/
def dictDel {κ α : Type} [DecidableEq κ] : List (κ × α) → κ → List (κ × α)
  | [], _ => []
  | (k, v) :: rest, key => if k = key then rest else (k, v) :: dictDel rest key

/-- A raised Python exception, abstracted to its type name and message
(`wait_for_task` re-raises the stored exception object itself, so type and
message are preserved exactly). -/
structure PyException where
  ty : String
  msg : String
deriving DecidableEq, Repr

/-! ## async_task_manager.py -/

/-- `TaskStatus` enum (async_task_manager.py lines 17-24). -/
inductive TaskStatus
  | pending
  | running
  | completed
  | failed
  | cancelled
  | timeout
deriving DecidableEq, Repr

/-- The list `[COMPLETED, FAILED, CANCELLED, TIMEOUT]` used by
`wait_for_task` and `remove_completed_tasks`. -/
def terminalStatuses : List TaskStatus :=
  [TaskStatus.completed, TaskStatus.failed, TaskStatus.cancelled, TaskStatus.timeout]

/-- The task id string `f"{name}_{counter}_{ms}"` (submit_task line 128),
represented by its three components.  The counter is globally unique per
manager, and the decomposition of the id string into `(name, counter, ms)`
is unique (the last two underscore-separated fields are digit strings), so
component-wise equality coincides with string equality. -/
structure TaskId where
  name : String
  counter : Nat
  timeMs : Nat
deriving DecidableEq, Repr

/-- `AsyncTask` dataclass (lines 27-41).  The coroutine itself and the
executor future are external objects; the coroutine's behaviour is supplied
at execution time (`CoroutineBehavior`), and `future.cancel()` has no effect
on any stored field.  The `callback` is invoked only for its side effects and
any exception it raises is swallowed (lines 239-246), so it is omitted. -/
structure AsyncTask where
  taskId : TaskId
  name : String
  status : TaskStatus
  result : Option String
  error : Option PyException
  startTime : Option Nat
  endTime : Option Nat
  timeout : Option Nat
  metadata : List (String × String)
deriving DecidableEq, Repr

/-- The mutable state of `AsyncTaskManager` (lines 47-62): the `tasks` dict,
the contents of the bounded `asyncio.Queue` (FIFO, front first), the shutdown
flag and the id counter. -/
structure AsyncTaskManager where
  maxWorkers : Nat
  maxConcurrentTasks : Nat
  tasks : List (TaskId × AsyncTask)
  queue : List TaskId
  shutdown : Bool
  taskCounter : Nat
deriving DecidableEq, Repr

/-- `submit_task` (lines 101-151).  Returns the manager state after the call
together with the outcome: the new task id, or the raised `RuntimeError`.
On a full queue (`put_nowait` raises `QueueFull`, which happens exactly when
the queue is bounded, i.e. `maxsize > 0`, and holds `maxsize` items) the
provisionally inserted task is deleted again before raising. -/
def submitTask (m : AsyncTaskManager) (name : String) (timeout : Option Nat)
    (metadata : List (String × String)) (nowMs : Nat) :
    AsyncTaskManager × Except PyException TaskId :=
  if m.shutdown then
    (m, Except.error ⟨"RuntimeError", "任务管理器已关闭"⟩)
  else
    let counter := m.taskCounter + 1
    let tid : TaskId := ⟨name, counter, nowMs⟩
    let task : AsyncTask :=
      { taskId := tid, name := name, status := TaskStatus.pending,
        result := none, error := none, startTime := none, endTime := none,
        timeout := timeout, metadata := metadata }
    let tasks1 := dictSet m.tasks tid task
    if 0 < m.maxConcurrentTasks ∧ m.maxConcurrentTasks ≤ m.queue.length then
      ({ m with taskCounter := counter, tasks := dictDel tasks1 tid },
       Except.error ⟨"RuntimeError", "任务队列已满"⟩)
    else
      ({ m with taskCounter := counter, tasks := tasks1, queue := m.queue ++ [tid] },
       Except.ok tid)

/-- `submit_sync_task` (lines 153-191): wraps the blocking call in a coroutine
awaiting the executor future and routes it through `submit_task`, with
`name or func.__name__` as the task name. -/
def submitSyncTask (m : AsyncTaskManager) (funcName name : String)
    (timeout : Option Nat) (metadata : List (String × String)) (nowMs : Nat) :
    AsyncTaskManager × Except PyException TaskId :=
  submitTask m (if name = "" then funcName else name) timeout metadata nowMs

/-- Behaviour of an awaited coroutine: the value it returns, or the exception
it raises, together with the wall-clock duration it runs for. -/
inductive CoroutineBehavior
  | returns (v : String) (duration : Nat)
  | raises (e : PyException) (duration : Nat)
deriving DecidableEq, Repr

def CoroutineBehavior.duration : CoroutineBehavior → Nat
  | .returns _ d => d
  | .raises _ d => d

/-- `_execute_task` (lines 208-246) acting on one task, given the coroutine's
behaviour and the wall-clock time at the start.  `if task.timeout:` is falsy
for both `None` and `0`, so a zero timeout disables the `asyncio.wait_for`
wrapper; `asyncio.wait_for` raises `asyncio.TimeoutError` when the coroutine
runs longer than the timeout. -/
def runTask (task : AsyncTask) (beh : CoroutineBehavior) (now : Nat) : AsyncTask :=
  let t := { task with status := TaskStatus.running, startTime := some now }
  let timedOut :=
    match t.timeout with
    | some τ => decide (τ ≠ 0) && decide (τ < beh.duration)
    | none => false
  let t :=
    if timedOut then
      { t with status := TaskStatus.timeout,
               error := some ⟨"TimeoutError",
                              "任务超时: " ++ toString (t.timeout.getD 0) ++ "秒"⟩ }
    else
      match beh with
      | .returns v _ => { t with status := TaskStatus.completed, result := some v }
      | .raises e _ => { t with status := TaskStatus.failed, error := some e }
  { t with endTime := some (now + (if timedOut then t.timeout.getD 0 else beh.duration)) }

/-- One round of `_process_tasks` + `_execute_task` at the manager level
(lines 193-246): the task is dequeued and executed; exceptions inside the
task are captured on the task record by `runTask`, never propagated. -/
def executeTask (m : AsyncTaskManager) (tid : TaskId) (beh : CoroutineBehavior)
    (now : Nat) : AsyncTaskManager :=
  match dictGet m.tasks tid with
  | none => m
  | some t => { m with tasks := dictSet m.tasks tid (runTask t beh now),
                       queue := m.queue.filter (fun q => q ≠ tid) }

/-- `get_task_status` (lines 252-255). -/
def getTaskStatus (m : AsyncTaskManager) (tid : TaskId) : Option TaskStatus :=
  (dictGet m.tasks tid).map (fun t => t.status)

/-- `get_task_result` (lines 257-260): `task.result if task else None`. -/
def getTaskResult (m : AsyncTaskManager) (tid : TaskId) : Option String :=
  match dictGet m.tasks tid with
  | none => none
  | some t => t.result

/-- `get_task_error` (lines 262-265): `task.error if task else None`. -/
def getTaskError (m : AsyncTaskManager) (tid : TaskId) : Option PyException :=
  match dictGet m.tasks tid with
  | none => none
  | some t => t.error

/-- `cancel_task` (lines 276-289): returns `False` for an unknown id;
otherwise attempts `future.cancel()` (no effect on stored fields) and sets
the status to CANCELLED unconditionally — there is no check that the task is
not already in a terminal state. -/
def cancelTask (m : AsyncTaskManager) (tid : TaskId) : AsyncTaskManager × Bool :=
  match dictGet m.tasks tid with
  | none => (m, false)
  | some t =>
    ({ m with tasks := dictSet m.tasks tid { t with status := TaskStatus.cancelled } },
     true)

/-- `cancel_all_tasks` (lines 291-296): `cancel_task` over every key. -/
def cancelAllTasks (m : AsyncTaskManager) : AsyncTaskManager :=
  (m.tasks.map Prod.fst).foldl (fun acc tid => (cancelTask acc tid).1) m

/-- One iteration of the polling loop of `wait_for_task` (lines 357-390):
`none` means the task is not terminal yet and the loop sleeps and polls
again; `some` is the loop's outcome — the stored exception is re-raised if
present, else the stored result is returned. -/
def waitForTaskPoll (m : AsyncTaskManager) (tid : TaskId) :
    Option (Except PyException (Option String)) :=
  match dictGet m.tasks tid with
  | none => some (Except.error ⟨"ValueError", "任务不存在"⟩)
  | some t =>
    if t.status ∈ terminalStatuses then
      match t.error with
      | some e => some (Except.error e)
      | none => some (Except.ok t.result)
    else none

/-! ## memory_pool.py -/

/-- `ByteBufferPool` (memory_pool.py lines 10-33).  A buffer is represented
by its length (`len(buffer)`); the contents never matter to the pool.
Python appends to and pops from the end of `self._pool`; the list head here
plays the role of that end (both are a stack). -/
structure ByteBufferPool where
  chunkSize : Nat
  maxChunks : Nat
  pool : List Nat
deriving DecidableEq, Repr

/-- `acquire` (lines 19-23): pop a pooled buffer, else allocate a fresh
`chunk_size` one. -/
def ByteBufferPool.acquire (p : ByteBufferPool) : ByteBufferPool × Nat :=
  match p.pool with
  | [] => (p, p.chunkSize)
  | b :: rest => ({ p with pool := rest }, b)

/-- `release` (lines 25-33) on a non-None buffer: stored only while under
`max_chunks` capacity, and a wrongly sized buffer is replaced by a fresh
`chunk_size` one before being stored. -/
def ByteBufferPool.release (p : ByteBufferPool) (bufferLen : Nat) : ByteBufferPool :=
  if p.pool.length < p.maxChunks then
    let b := if bufferLen ≠ p.chunkSize then p.chunkSize else bufferLen
    { p with pool := b :: p.pool }
  else p

/-- Every pooled buffer has exactly `chunk_size` bytes (the invariant that
`release` maintains). -/
def ByteBufferPool.WellFormed (p : ByteBufferPool) : Prop :=
  ∀ b ∈ p.pool, b = p.chunkSize

instance (p : ByteBufferPool) : Decidable p.WellFormed := by
  unfold ByteBufferPool.WellFormed; infer_instance

/-- Python `str.split()` whitespace test, restricted to the ASCII whitespace
characters (the repository only feeds it ASCII-spaced text). -/
def pyIsSpace (c : Char) : Bool :=
  c = ' ' || c = '\t' || c = '\n' || c = '\r' || c = '\x0b' || c = '\x0c'

/-- Worker for Python `str.split()` (split on whitespace runs, dropping empty
fields); `acc` holds the current word reversed. -/
def pySplitAux : List Char → List Char → List (List Char)
  | [], acc => if acc.isEmpty then [] else [acc.reverse]
  | c :: cs, acc =>
    if pyIsSpace c then
      if acc.isEmpty then pySplitAux cs []
      else acc.reverse :: pySplitAux cs []
    else pySplitAux cs (c :: acc)

/-- Python `text.split()` with no separator argument. -/
def pySplit (l : List Char) : List (List Char) := pySplitAux l []

/-- Python `" ".join(words)`. -/
def joinWithSpace : List (List Char) → List Char
  | [] => []
  | [w] => w
  | w :: ws => w ++ ' ' :: joinWithSpace ws

/-- The compaction marker `"\n...\n"` inserted between head and tail. -/
def compactionMarker : List Char := ['\n', '.', '.', '.', '\n']

/-- `normalize_large_text` (memory_pool.py lines 36-46) on a string already
of `str` type, over `List Char`.  Python `text[: max_len // 2]` keeps the
first `max_len / 2` characters and `text[-max_len // 2 :]` the last
`(max_len + 1) / 2` (floor division of the negated bound). -/
def normalizeLargeText (text : List Char) (maxLen : Nat) : List Char :=
  let text :=
    if maxLen < text.length then
      text.take (maxLen / 2) ++ compactionMarker
        ++ text.drop (text.length - (maxLen + 1) / 2)
    else text
  joinWithSpace (pySplit text)

/-! ## api_optimizer.py — CircuitBreaker -/

/-- The three breaker states `"closed"`, `"open"`, `"half_open"`
(api_optimizer.py line 143).  `open` is a Lean keyword, hence `opened`. -/
inductive CBState
  | closed
  | opened
  | halfOpen
deriving DecidableEq, Repr

/-- `CircuitBreaker` state (api_optimizer.py lines 135-144). -/
structure CircuitBreaker where
  threshold : Nat
  timeout : Nat
  failureCount : Nat
  lastFailureTime : Nat
  state : CBState
deriving DecidableEq, Repr

/-- Outcome of `CircuitBreaker.call`: the breaker-open exception raised
without invoking the wrapped function, or the wrapped function was invoked
and returned / raised. -/
inductive CBCallResult
  | blockedOpen
  | succeeded
  | failed
deriving DecidableEq, Repr

/-- `CircuitBreaker.call` (api_optimizer.py lines 146-180), given the current
wall-clock time and whether the wrapped function would succeed.  In the open
state the call is let through only when strictly more than `timeout` seconds
have passed since the last failure (`current_time - last_failure_time >
timeout`, the same comparison over `Nat` for monotone clocks), moving the
breaker to half-open first. -/
def CircuitBreaker.call (cb : CircuitBreaker) (now : Nat) (funcSucceeds : Bool) :
    CircuitBreaker × CBCallResult :=
  if cb.state = CBState.opened ∧ ¬ cb.timeout < now - cb.lastFailureTime then
    (cb, CBCallResult.blockedOpen)
  else
    let cb1 := if cb.state = CBState.opened then { cb with state := CBState.halfOpen } else cb
    if funcSucceeds then
      let cb2 :=
        if cb1.state = CBState.halfOpen then
          { cb1 with state := CBState.closed, failureCount := 0 }
        else cb1
      (cb2, CBCallResult.succeeded)
    else
      let fc := cb1.failureCount + 1
      let cb2 := { cb1 with failureCount := fc, lastFailureTime := now }
      let cb3 := if cb2.threshold ≤ fc then { cb2 with state := CBState.opened } else cb2
      (cb3, CBCallResult.failed)

/-- A fresh breaker as built by `__init__` (lines 138-144). -/
def CircuitBreaker.fresh (threshold timeout : Nat) : CircuitBreaker :=
  { threshold := threshold, timeout := timeout, failureCount := 0,
    lastFailureTime := 0, state := CBState.closed }

/-- Run a sequence of calls (time, wrapped-function success) through the
breaker, collecting the per-call results. -/
def CircuitBreaker.runCalls (cb : CircuitBreaker) :
    List (Nat × Bool) → CircuitBreaker × List CBCallResult
  | [] => (cb, [])
  | (t, ok) :: rest =>
    let step := cb.call t ok
    let tail := step.1.runCalls rest
    (tail.1, step.2 :: tail.2)

/-! ## Cache key generation -/

/-- Python `str.upper()` restricted to ASCII (header names and HTTP methods
in this repository are ASCII; Lean core `Char.toUpper` is ASCII-only too). -/
def pyUpper (s : String) : String := String.mk (s.data.map Char.toUpper)

/-- Python `str.lower()` restricted to ASCII. -/
def pyLower (s : String) : String := String.mk (s.data.map Char.toLower)

/-- Lexicographic comparison of character lists by code point, the order
Python uses for `str`. -/
def listCharLt : List Char → List Char → Bool
  | [], [] => false
  | [], _ :: _ => true
  | _ :: _, [] => false
  | a :: as, b :: bs => if a < b then true else if b < a then false else listCharLt as bs

/-- Python `a < b` on strings. -/
def pyStrLt (a b : String) : Bool := listCharLt a.data b.data

/-- Boolean comparison used to model Python `sorted` on `(str, str)` pairs:
lexicographic on the key, then the value. -/
def pairLe (a b : String × String) : Bool :=
  pyStrLt a.1 b.1 || (decide (a.1 = b.1) && !(pyStrLt b.2 a.2))

/-- Insertion step of the stable sort below. -/
def insertSorted (x : String × String) :
    List (String × String) → List (String × String)
  | [] => [x]
  | y :: ys => if pairLe x y then x :: y :: ys else y :: insertSorted x ys

/-- Python `sorted(d.items())` over an association list: a stable sort by
`pairLe`, as CPython `sorted` is. -/
def sortPairs (ps : List (String × String)) : List (String × String) :=
  ps.foldr insertSorted []

/-- Rendering of a sorted item list into the key string; stands in for
Python `str(list_of_tuples)`.  Only the congruence `equal lists → equal
strings` is ever used. -/
def renderPairs (ps : List (String × String)) : String :=
  String.intercalate "; " (ps.map (fun kv => kv.1 ++ "=" ++ kv.2))

/-- The header filter of connection_pool_manager.py line 52: keep headers
whose lower-cased name is `accept` or `content-type`. -/
def cpImportantHeaders (headers : List (String × String)) : List (String × String) :=
  headers.filter (fun kv => pyLower kv.1 = "accept" || pyLower kv.1 = "content-type")

/-- The header filter of api_optimizer.py lines 66-67: additionally keeps
`authorization`. -/
def apiImportantHeaders (headers : List (String × String)) : List (String × String) :=
  headers.filter (fun kv =>
    pyLower kv.1 = "accept" || pyLower kv.1 = "content-type" ||
    pyLower kv.1 = "authorization")

/-- `ResponseCache._generate_key` (connection_pool_manager.py lines 45-54).
`None` and the empty dict are both falsy in `if params:` / `if headers:`,
so `none` and `some []` contribute no component — but any non-empty headers
dict contributes one, even when no header survives the filter. -/
def cpGenerateKey (method url : String) (params : Option (List (String × String)))
    (headers : Option (List (String × String))) : String :=
  let parts := [pyUpper method, url]
  let parts := parts ++
    (match params with
     | some ps => if ps.isEmpty then [] else [renderPairs (sortPairs ps)]
     | none => [])
  let parts := parts ++
    (match headers with
     | some hs => if hs.isEmpty then [] else [renderPairs (sortPairs (cpImportantHeaders hs))]
     | none => [])
  String.intercalate "|" parts

/-- `ResponseCache._generate_cache_key` (api_optimizer.py lines 55-78): like
the connection-pool variant but with `authorization` among the kept headers
and a 16-hex-digit md5 of the payload appended for non-empty string/bytes
payloads.  The md5 truncation is abstracted as the function argument
`dataHash`; every theorem below holds for an arbitrary `dataHash`. -/
def apiGenerateCacheKey (dataHash : String → String) (method url : String)
    (params : Option (List (String × String)))
    (headers : Option (List (String × String))) (data : Option String) : String :=
  let parts := [pyUpper method, url]
  let parts := parts ++
    (match params with
     | some ps => if ps.isEmpty then [] else [renderPairs (sortPairs ps)]
     | none => [])
  let parts := parts ++
    (match headers with
     | some hs => if hs.isEmpty then [] else [renderPairs (sortPairs (apiImportantHeaders hs))]
     | none => [])
  let parts := parts ++
    (match data with
     | some d => if d.isEmpty then [] else [dataHash d]
     | none => [])
  String.intercalate "|" parts

/-! ## ResponseCache — connection_pool_manager.py variant -/

/-- `ResponseCache` of connection_pool_manager.py (lines 37-43): a TTL and a
`key -> (response_data, timestamp)` dict.  No capacity parameter exists in
this variant. -/
structure CPResponseCache where
  ttl : Nat
  cache : List (String × (String × Nat))
deriving DecidableEq, Repr

/-- Body of `ResponseCache.get` (lines 56-70) at an already generated key:
a hit younger than `ttl` returns the payload; an entry at least `ttl` old is
deleted and the call returns `None`. -/
def cpCacheLookup (c : CPResponseCache) (key : String) (now : Nat) :
    CPResponseCache × Option String :=
  match dictGet c.cache key with
  | some (data, ts) =>
    if now - ts < c.ttl then (c, some data)
    else ({ c with cache := dictDel c.cache key }, none)
  | none => (c, none)

/-- `ResponseCache.get` (lines 56-70). -/
def cpCacheGet (c : CPResponseCache) (method url : String)
    (params headers : Option (List (String × String))) (now : Nat) :
    CPResponseCache × Option String :=
  cpCacheLookup c (cpGenerateKey method url params headers) now

/-- Body of `ResponseCache.set` (lines 72-78) at an already generated key:
unconditional insertion, with no capacity check. -/
def cpCacheInsert (c : CPResponseCache) (key data : String) (now : Nat) :
    CPResponseCache :=
  { c with cache := dictSet c.cache key (data, now) }

/-- `ResponseCache.set` (lines 72-78). -/
def cpCacheSet (c : CPResponseCache) (method url data : String)
    (params headers : Option (List (String × String))) (now : Nat) :
    CPResponseCache :=
  cpCacheInsert c (cpGenerateKey method url params headers) data now

/-! ## ResponseCache — api_optimizer.py variant -/

/-- `ResponseCache` of api_optimizer.py (lines 46-53): TTL, `max_size`
(default 100) and the `key -> (response_data, timestamp)` dict. -/
structure APIResponseCache where
  ttl : Nat
  maxSize : Nat
  cache : List (String × (String × Nat))
deriving DecidableEq, Repr

/-- `min(self.cache.keys(), key=lambda k: self.cache[k][1])` (line 106):
the first key in insertion order whose timestamp is minimal.  `none` only on
an empty dict, where the Python `min` would raise `ValueError`. -/
def oldestEntry (l : List (String × (String × Nat))) : Option (String × Nat) :=
  l.foldl
    (fun acc kv =>
      match acc with
      | none => some (kv.1, kv.2.2)
      | some (k, ts) => if kv.2.2 < ts then some (kv.1, kv.2.2) else some (k, ts))
    none

/-- Body of `ResponseCache.get` (api_optimizer.py lines 80-95) at an already
generated key; identical logic to the connection-pool variant. -/
def apiCacheLookup (c : APIResponseCache) (key : String) (now : Nat) :
    APIResponseCache × Option String :=
  match dictGet c.cache key with
  | some (data, ts) =>
    if now - ts < c.ttl then (c, some data)
    else ({ c with cache := dictDel c.cache key }, none)
  | none => (c, none)

/-- Body of `ResponseCache.set` (api_optimizer.py lines 97-110) at an already
generated key: when the dict already holds at least `max_size` entries the
entry with the oldest timestamp is deleted first, then the new entry is
stored.  (With `max_size = 0` and an empty dict the Python `min` on line 106
would raise; that unreachable corner is modelled as skipping the eviction.) -/
def apiCacheInsert (c : APIResponseCache) (key data : String) (now : Nat) :
    APIResponseCache :=
  let cache1 :=
    if c.maxSize ≤ c.cache.length then
      match oldestEntry c.cache with
      | some (k, _) => dictDel c.cache k
      | none => c.cache
    else c.cache
  { c with cache := dictSet cache1 key (data, now) }

/-- `ResponseCache.set` (api_optimizer.py lines 97-110). -/
def apiCacheSet (dataHash : String → String) (c : APIResponseCache)
    (method url respData : String) (params headers : Option (List (String × String)))
    (data : Option String) (now : Nat) : APIResponseCache :=
  apiCacheInsert c (apiGenerateCacheKey dataHash method url params headers data) respData now

/-! ## Concrete states used to instantiate the theorems -/

def exTid : TaskId := ⟨"t", 1, 0⟩

/-- A task that has already completed successfully. -/
def exCompletedTask : AsyncTask :=
  { taskId := exTid, name := "t", status := TaskStatus.completed,
    result := some "ok", error := none, startTime := some 0, endTime := some 1,
    timeout := none, metadata := [] }

/-- A manager holding one completed task. -/
def exMgrCompleted : AsyncTaskManager :=
  { maxWorkers := 10, maxConcurrentTasks := 50,
    tasks := [(exTid, exCompletedTask)], queue := [], shutdown := false,
    taskCounter := 1 }

/-- A freshly submitted, still pending task with no timeout. -/
def exPendingTask : AsyncTask :=
  { taskId := exTid, name := "t", status := TaskStatus.pending,
    result := none, error := none, startTime := none, endTime := none,
    timeout := none, metadata := [] }

/-- A manager whose bounded queue (capacity 1) is full. -/
def exMgrFull : AsyncTaskManager :=
  { maxWorkers := 1, maxConcurrentTasks := 1,
    tasks := [(exTid, exPendingTask)], queue := [exTid], shutdown := false,
    taskCounter := 1 }

/-- A pending task with a 2-second timeout. -/
def exTimedTask : AsyncTask :=
  { taskId := exTid, name := "t", status := TaskStatus.pending,
    result := none, error := none, startTime := none, endTime := none,
    timeout := some 2, metadata := [] }

/-- A manager holding the timed task. -/
def exMgrTimed : AsyncTaskManager :=
  { maxWorkers := 10, maxConcurrentTasks := 50,
    tasks := [(exTid, exTimedTask)], queue := [exTid], shutdown := false,
    taskCounter := 1 }

/-- A buffer pool with chunk size 4, capacity 2, one pooled buffer. -/
def exPool : ByteBufferPool := ⟨4, 2, [4]⟩

/-- A connection-pool response cache with TTL 10 and one entry stored at
time 100. -/
def exCpCache : CPResponseCache := ⟨10, [("k", ("v", 100))]⟩

/-- An api-optimizer response cache with TTL 10, capacity 100, one entry. -/
def exApiCache : APIResponseCache := ⟨10, 100, [("k", ("v", 100))]⟩

/-- An api-optimizer response cache filled to its capacity of 2. -/
def exApiFull : APIResponseCache := ⟨10, 2, [("a", ("x", 5)), ("b", ("y", 7))]⟩

/-- 101 distinct GET responses stored in the connection-pool cache, which
has no capacity parameter. -/
def cpUnboundedGrowth : CPResponseCache :=
  (List.range 101).foldl
    (fun c i => cpCacheSet c "GET" (toString i) "d" none none 0)
    ⟨300, []⟩

/-! ## Association-list (dict) lemmas -/

theorem dictGet_set_self {κ α : Type} [DecidableEq κ] (l : List (κ × α)) (k : κ) (v : α) :
    dictGet (dictSet l k v) k = some v := by
  induction l with
  | nil => simp [dictSet, dictGet]
  | cons hd tl ih =>
    obtain ⟨a, b⟩ := hd
    by_cases hk : a = k
    · simp [dictSet, dictGet, hk]
    · simp [dictSet, dictGet, hk, ih]

theorem dictGet_set_ne {κ α : Type} [DecidableEq κ] (l : List (κ × α)) (k k' : κ) (v : α)
    (h : k' ≠ k) : dictGet (dictSet l k v) k' = dictGet l k' := by
  have hkk : ¬ k = k' := fun hh => h hh.symm
  induction l with
  | nil => simp [dictSet, dictGet, hkk]
  | cons hd tl ih =>
    obtain ⟨a, b⟩ := hd
    by_cases hk : a = k
    · subst hk
      simp [dictSet, dictGet, hkk]
    · by_cases hk' : a = k'
      · simp [dictSet, dictGet, hk, hk', h]
      · simp [dictSet, dictGet, hk, hk', ih]

theorem dictDel_set_fresh {κ α : Type} [DecidableEq κ] (l : List (κ × α)) (k : κ) (v : α)
    (h : dictGet l k = none) : dictDel (dictSet l k v) k = l := by
  induction l with
  | nil => simp [dictSet, dictDel]
  | cons hd tl ih =>
    obtain ⟨a, b⟩ := hd
    by_cases hk : a = k
    · rw [dictGet, if_pos hk] at h
      exact absurd h (by simp)
    · rw [dictGet, if_neg hk] at h
      simp [dictSet, dictDel, hk, ih h]

theorem dictGet_del_none {κ α : Type} [DecidableEq κ] (l : List (κ × α)) (k k' : κ)
    (h : dictGet l k' = none) : dictGet (dictDel l k) k' = none := by
  induction l with
  | nil => simp [dictDel, dictGet]
  | cons hd tl ih =>
    obtain ⟨a, b⟩ := hd
    rw [dictGet] at h
    by_cases hk' : a = k'
    · rw [if_pos hk'] at h; exact absurd h (by simp)
    · rw [if_neg hk'] at h
      by_cases hk : a = k
      · rw [dictDel, if_pos hk]; exact h
      · rw [dictDel, if_neg hk, dictGet, if_neg hk']
        exact ih h

theorem dictGet_eq_none_of_not_mem {κ α : Type} [DecidableEq κ] (l : List (κ × α)) (k : κ)
    (h : k ∉ l.map Prod.fst) : dictGet l k = none := by
  induction l with
  | nil => simp [dictGet]
  | cons hd tl ih =>
    obtain ⟨a, b⟩ := hd
    simp only [List.map_cons, List.mem_cons] at h
    push_neg at h
    rw [dictGet, if_neg (fun hh => h.1 hh.symm)]
    exact ih h.2

theorem dictGet_del_self {κ α : Type} [DecidableEq κ] (l : List (κ × α)) (k : κ)
    (h : (l.map Prod.fst).Nodup) : dictGet (dictDel l k) k = none := by
  induction l with
  | nil => simp [dictDel, dictGet]
  | cons hd tl ih =>
    obtain ⟨a, b⟩ := hd
    simp only [List.map_cons, List.nodup_cons] at h
    by_cases hk : a = k
    · rw [dictDel, if_pos hk]
      exact dictGet_eq_none_of_not_mem tl k (hk ▸ h.1)
    · rw [dictDel, if_neg hk, dictGet, if_neg hk]
      exact ih h.2

theorem dictSet_length_le {κ α : Type} [DecidableEq κ] (l : List (κ × α)) (k : κ) (v : α) :
    (dictSet l k v).length ≤ l.length + 1 := by
  induction l with
  | nil => simp [dictSet]
  | cons hd tl ih =>
    obtain ⟨a, b⟩ := hd
    by_cases hk : a = k
    · simp [dictSet, hk]
    · simp only [dictSet, if_neg hk, List.length_cons]
      omega

theorem dictSet_length_fresh {κ α : Type} [DecidableEq κ] (l : List (κ × α)) (k : κ) (v : α)
    (h : dictGet l k = none) : (dictSet l k v).length = l.length + 1 := by
  induction l with
  | nil => simp [dictSet]
  | cons hd tl ih =>
    obtain ⟨a, b⟩ := hd
    rw [dictGet] at h
    by_cases hk : a = k
    · rw [if_pos hk] at h; exact absurd h (by simp)
    · rw [if_neg hk] at h
      simp [dictSet, if_neg hk, ih h]

theorem dictDel_length_mem {κ α : Type} [DecidableEq κ] (l : List (κ × α)) (k : κ) (v : α)
    (h : dictGet l k = some v) : (dictDel l k).length + 1 = l.length := by
  induction l with
  | nil => simp [dictGet] at h
  | cons hd tl ih =>
    obtain ⟨a, b⟩ := hd
    rw [dictGet] at h
    by_cases hk : a = k
    · rw [dictDel, if_pos hk]
      simp
    · rw [if_neg hk] at h
      rw [dictDel, if_neg hk, List.length_cons, List.length_cons, ih h]

theorem dictGet_isSome_of_mem {κ α : Type} [DecidableEq κ] {l : List (κ × α)} {k : κ} {v : α}
    (h : (k, v) ∈ l) : ∃ w, dictGet l k = some w := by
  induction l with
  | nil => simp at h
  | cons hd tl ih =>
    obtain ⟨a, b⟩ := hd
    rcases List.mem_cons.mp h with h1 | h2
    · obtain ⟨h1a, h1b⟩ := Prod.mk.injEq .. ▸ h1.symm
      exact ⟨b, by simp [dictGet, h1a]⟩
    · by_cases hk : a = k
      · exact ⟨b, by rw [dictGet, if_pos hk]⟩
      · obtain ⟨w, hw⟩ := ih h2
        exact ⟨w, by rw [dictGet, if_neg hk]; exact hw⟩

/-! ## oldestEntry lemmas -/

/-- The folding step of `oldestEntry`, named for the proofs below. -/
theorem oldestEntry_aux_isSome (l : List (String × (String × Nat))) (p : String × Nat) :
    (l.foldl
      (fun acc kv =>
        match acc with
        | none => some (kv.1, kv.2.2)
        | some (k, ts) => if kv.2.2 < ts then some (kv.1, kv.2.2) else some (k, ts))
      (some p)).isSome := by
  induction l generalizing p with
  | nil => simp
  | cons hd tl ih =>
    simp only [List.foldl_cons]
    obtain ⟨k, ts⟩ := p
    by_cases h : hd.2.2 < ts
    · rw [if_pos h]; exact ih _
    · rw [if_neg h]; exact ih _

theorem oldestEntry_isSome (l : List (String × (String × Nat))) (h : l ≠ []) :
    (oldestEntry l).isSome := by
  match l with
  | [] => exact absurd rfl h
  | hd :: tl =>
    rw [oldestEntry, List.foldl_cons]
    exact oldestEntry_aux_isSome tl (hd.1, hd.2.2)

theorem oldestEntry_aux_mem (l : List (String × (String × Nat))) (p : String × Nat)
    (k : String) (ts : Nat)
    (h : l.foldl
      (fun acc kv =>
        match acc with
        | none => some (kv.1, kv.2.2)
        | some (k, ts) => if kv.2.2 < ts then some (kv.1, kv.2.2) else some (k, ts))
      (some p) = some (k, ts)) :
    p = (k, ts) ∨ ∃ d, (k, (d, ts)) ∈ l := by
  induction l generalizing p with
  | nil =>
    simp only [List.foldl_nil, Option.some.injEq] at h
    exact Or.inl h
  | cons hd tl ih =>
    simp only [List.foldl_cons] at h
    obtain ⟨k', ts'⟩ := p
    by_cases hlt : hd.2.2 < ts'
    · rw [if_pos hlt] at h
      rcases ih _ h with h1 | ⟨d, hd2⟩
      · right
        refine ⟨hd.2.1, ?_⟩
        have hk : hd.1 = k := congrArg Prod.fst h1
        have hts : hd.2.2 = ts := congrArg Prod.snd h1
        have : hd = (k, (hd.2.1, ts)) := by
          rw [← hk, ← hts]
        rw [← this]; exact List.mem_cons_self _ _
      · exact Or.inr ⟨d, List.mem_cons_of_mem _ hd2⟩
    · rw [if_neg hlt] at h
      rcases ih _ h with h1 | ⟨d, hd2⟩
      · exact Or.inl h1
      · exact Or.inr ⟨d, List.mem_cons_of_mem _ hd2⟩

theorem oldestEntry_mem (l : List (String × (String × Nat))) (k : String) (ts : Nat)
    (h : oldestEntry l = some (k, ts)) : ∃ d, (k, (d, ts)) ∈ l := by
  match l with
  | [] => simp [oldestEntry] at h
  | hd :: tl =>
    rw [oldestEntry, List.foldl_cons] at h
    rcases oldestEntry_aux_mem tl (hd.1, hd.2.2) k ts h with h1 | ⟨d, hd2⟩
    · refine ⟨hd.2.1, ?_⟩
      have hk : hd.1 = k := congrArg Prod.fst h1
      have hts : hd.2.2 = ts := congrArg Prod.snd h1
      have : hd = (k, (hd.2.1, ts)) := by
        rw [← hk, ← hts]
      rw [← this]; exact List.mem_cons_self _ _
    · exact ⟨d, List.mem_cons_of_mem _ hd2⟩

/-! ## pySplit / joinWithSpace lemmas -/

theorem pySplitAux_spaces (n : Nat) (l : List Char) :
    pySplitAux (List.replicate n ' ' ++ l) [] = pySplitAux l [] := by
  induction n with
  | zero => simp
  | succ n ih =>
    rw [List.replicate_succ, List.cons_append, pySplitAux]
    simp only [pyIsSpace]
    rw [if_pos (by decide), if_pos (by simp)]
    exact ih

theorem pySplitAux_word (w l acc : List Char)
    (hw : ∀ c ∈ w, pyIsSpace c = false) :
    pySplitAux (w ++ l) acc = pySplitAux l (w.reverse ++ acc) := by
  induction w generalizing acc with
  | nil => simp
  | cons c cs ih =>
    have hc : pyIsSpace c = false := hw c (by simp)
    rw [List.cons_append, pySplitAux, if_neg (by simp [hc])]
    rw [ih (c :: acc) (fun x hx => hw x (by simp [hx]))]
    simp

theorem joinWithSpace_cons_le (w : List Char) (ws : List (List Char)) :
    (joinWithSpace (w :: ws)).length ≤ w.length + 1 + (joinWithSpace ws).length := by
  cases ws with
  | nil => simp [joinWithSpace]
  | cons w2 ws2 =>
    simp only [joinWithSpace, List.length_append, List.length_cons]
    omega

theorem joinSplitAux_length (l : List Char) : ∀ acc : List Char,
    (joinWithSpace (pySplitAux l acc)).length ≤ l.length + acc.length := by
  induction l with
  | nil =>
    intro acc
    by_cases h : acc.isEmpty = true
    · simp [pySplitAux, h, joinWithSpace]
    · simp [pySplitAux, h, joinWithSpace]
  | cons c cs ih =>
    intro acc
    by_cases hsp : pyIsSpace c = true
    · by_cases hacc : acc.isEmpty = true
      · rw [pySplitAux, if_pos (by simp [hsp]), if_pos hacc]
        have := ih []
        simp only [List.length_nil, Nat.add_zero] at this
        simp only [List.length_cons]
        omega
      · rw [pySplitAux, if_pos (by simp [hsp]), if_neg hacc]
        have h1 := joinWithSpace_cons_le acc.reverse (pySplitAux cs [])
        have h2 := ih []
        simp only [List.length_nil, Nat.add_zero] at h2
        simp only [List.length_reverse] at h1
        simp only [List.length_cons]
        omega
    · rw [pySplitAux, if_neg (by simp [hsp])]
      have := ih (c :: acc)
      simp only [List.length_cons] at this ⊢
      omega

/-! ## CircuitBreaker lemmas -/

theorem runCalls_append (cb : CircuitBreaker) (xs ys : List (Nat × Bool)) :
    cb.runCalls (xs ++ ys)
      = (((cb.runCalls xs).1.runCalls ys).1,
         (cb.runCalls xs).2 ++ ((cb.runCalls xs).1.runCalls ys).2) := by
  induction xs generalizing cb with
  | nil => simp [CircuitBreaker.runCalls]
  | cons hd tl ih =>
    obtain ⟨t, ok⟩ := hd
    simp only [List.cons_append, CircuitBreaker.runCalls, List.append_eq]
    rw [ih ((cb.call t ok).1)]

/-- A single failing call while the breaker is closed: the function is
invoked, the failure counter is bumped and the breaker opens exactly when the
counter reaches the threshold. -/
theorem call_closed_fail (cb : CircuitBreaker) (t : Nat)
    (h : cb.state = CBState.closed) :
    cb.call t false =
      (if cb.threshold ≤ cb.failureCount + 1
        then { cb with failureCount := cb.failureCount + 1, lastFailureTime := t,
                       state := CBState.opened }
        else { cb with failureCount := cb.failureCount + 1, lastFailureTime := t },
       CBCallResult.failed) := by
  rw [CircuitBreaker.call, if_neg (by simp [h])]
  simp only [h]
  by_cases hth : cb.threshold ≤ cb.failureCount + 1
  · simp [hth]
  · simp [hth, h]

/-- A run of consecutive failing calls that stays strictly below the
threshold: the breaker stays closed, every call invokes the function and
fails, and the counter adds up. -/
theorem runCalls_closed_fails (ts : List Nat) (cb : CircuitBreaker)
    (hstate : cb.state = CBState.closed)
    (hcount : cb.failureCount + ts.length < cb.threshold) :
    ((cb.runCalls (ts.map (fun t => (t, false)))).1.state = CBState.closed
      ∧ (cb.runCalls (ts.map (fun t => (t, false)))).1.failureCount
          = cb.failureCount + ts.length
      ∧ (cb.runCalls (ts.map (fun t => (t, false)))).1.threshold = cb.threshold
      ∧ (cb.runCalls (ts.map (fun t => (t, false)))).1.timeout = cb.timeout)
    ∧ (cb.runCalls (ts.map (fun t => (t, false)))).2
        = List.replicate ts.length CBCallResult.failed := by
  induction ts generalizing cb with
  | nil => simp [CircuitBreaker.runCalls, hstate]
  | cons t rest ih =>
    simp only [List.length_cons] at hcount
    have hth : ¬ cb.threshold ≤ cb.failureCount + 1 := by omega
    simp only [List.map_cons, CircuitBreaker.runCalls]
    rw [call_closed_fail cb t hstate, if_neg hth]
    have ihr := ih { cb with failureCount := cb.failureCount + 1, lastFailureTime := t }
      (by simp [hstate]) (by simp; omega)
    refine ⟨⟨?_, ?_, ?_, ?_⟩, ?_⟩
    · exact ihr.1.1
    · rw [ihr.1.2.1]; simp; omega
    · rw [ihr.1.2.2.1]
    · rw [ihr.1.2.2.2]
    · simp only [List.length_cons, List.replicate_succ]
      rw [ihr.2]


theorem runTask_status_terminal (t : AsyncTask) (beh : CoroutineBehavior) (now : Nat) :
    (runTask t beh now).status = TaskStatus.completed
    ∨ (runTask t beh now).status = TaskStatus.failed
    ∨ (runTask t beh now).status = TaskStatus.timeout := by
  simp only [runTask]
  by_cases h : (match t.timeout with
    | some τ => decide (τ ≠ 0) && decide (τ < beh.duration)
    | none => false) = true
  · rw [if_pos h]
    simp
  · rw [if_neg h]
    cases beh <;> simp

theorem runTask_raises (t : AsyncTask) (e : PyException) (dur now : Nat)
    (htime : ∀ τ, t.timeout = some τ → τ = 0 ∨ dur ≤ τ) :
    (runTask t (CoroutineBehavior.raises e dur) now).status = TaskStatus.failed
    ∧ (runTask t (CoroutineBehavior.raises e dur) now).error = some e
    ∧ (runTask t (CoroutineBehavior.raises e dur) now).result = t.result := by
  have hnot : (match t.timeout with
      | some τ => decide (τ ≠ 0) && decide (τ < (CoroutineBehavior.raises e dur).duration)
      | none => false) = false := by
    cases h : t.timeout with
    | none => rfl
    | some τ =>
      rcases htime τ h with h0 | hle
      · simp [h0]
      · simp [CoroutineBehavior.duration]
        omega
  simp only [runTask, hnot]
  simp

theorem runTask_timeout (t : AsyncTask) (beh : CoroutineBehavior) (τ now : Nat)
    (ht : t.timeout = some τ) (hτ : 0 < τ) (hdur : τ < beh.duration) :
    (runTask t beh now).status = TaskStatus.timeout
    ∧ (runTask t beh now).error
        = some ⟨"TimeoutError", "任务超时: " ++ toString τ ++ "秒"⟩
    ∧ (runTask t beh now).result = t.result := by
  have hyes : (match t.timeout with
      | some τ2 => decide (τ2 ≠ 0) && decide (τ2 < beh.duration)
      | none => false) = true := by
    rw [ht]
    simp
    omega
  simp only [runTask, hyes]
  simp [ht]


/-- C1 (amended): `_execute_task` always moves a task to one of the three
run-terminal states completed/failed/timeout, and `cancel_task` on any
existing task returns `True` and sets its status to cancelled regardless of
the current status — including the four terminal states, which are therefore
final only in the absence of cancellation. -/
theorem claim_C1_amended (m : AsyncTaskManager) (tid : TaskId) (t : AsyncTask)
    (beh : CoroutineBehavior) (now : Nat)
    (hget : dictGet m.tasks tid = some t) :
    ((runTask t beh now).status = TaskStatus.completed
      ∨ (runTask t beh now).status = TaskStatus.failed
      ∨ (runTask t beh now).status = TaskStatus.timeout)
    ∧ getTaskStatus (cancelTask m tid).1 tid = some TaskStatus.cancelled
    ∧ (cancelTask m tid).2 = true := by
  refine ⟨runTask_status_terminal t beh now, ?_, ?_⟩
  · simp only [cancelTask, hget, getTaskStatus]
    rw [dictGet_set_self]
    rfl
  · simp [cancelTask, hget]

/-- C1 (counterexample): a task whose status is the terminal state
`completed` is moved to `cancelled` by `cancel_task`, so a manager operation
does change the status of a task already in a terminal state, contradicting
the claim as stated. -/
theorem claim_C1_counterexample :
    getTaskStatus exMgrCompleted exTid = some TaskStatus.completed
    ∧ (cancelTask exMgrCompleted exTid).2 = true
    ∧ getTaskStatus (cancelTask exMgrCompleted exTid).1 exTid = some TaskStatus.cancelled
    ∧ TaskStatus.completed ≠ TaskStatus.cancelled := by decide

/-- C1 (witness): the amended theorem instantiated at a concrete manager
holding one completed task. -/
theorem claim_C1_witness :
    ((runTask exCompletedTask (CoroutineBehavior.returns "v" 1) 5).status = TaskStatus.completed
      ∨ (runTask exCompletedTask (CoroutineBehavior.returns "v" 1) 5).status = TaskStatus.failed
      ∨ (runTask exCompletedTask (CoroutineBehavior.returns "v" 1) 5).status = TaskStatus.timeout)
    ∧ getTaskStatus (cancelTask exMgrCompleted exTid).1 exTid = some TaskStatus.cancelled
    ∧ (cancelTask exMgrCompleted exTid).2 = true :=
  claim_C1_amended exMgrCompleted exTid exCompletedTask
    (CoroutineBehavior.returns "v" 1) 5 (by decide)

/-- C4: with the manager running and the bounded queue already holding
`max_concurrent_tasks` entries, `submit_task` raises the capacity error
`RuntimeError("任务队列已满")` and leaves the task table and the queue exactly
as they were (the provisionally inserted task is removed); `submit_sync_task`
routes through `submit_task`. -/
theorem claim_C4_queue_full (m : AsyncTaskManager) (name funcName : String)
    (timeout : Option Nat) (metadata : List (String × String)) (nowMs : Nat)
    (hsd : m.shutdown = false)
    (hmax : 0 < m.maxConcurrentTasks)
    (hfull : m.queue.length = m.maxConcurrentTasks)
    (hfresh : dictGet m.tasks ⟨name, m.taskCounter + 1, nowMs⟩ = none) :
    (submitTask m name timeout metadata nowMs).2
      = Except.error ⟨"RuntimeError", "任务队列已满"⟩
    ∧ (submitTask m name timeout metadata nowMs).1.tasks = m.tasks
    ∧ (submitTask m name timeout metadata nowMs).1.queue = m.queue
    ∧ submitSyncTask m funcName name timeout metadata nowMs
        = submitTask m (if name = "" then funcName else name) timeout metadata nowMs := by
  have hcond : 0 < m.maxConcurrentTasks ∧ m.maxConcurrentTasks ≤ m.queue.length :=
    ⟨hmax, by omega⟩
  refine ⟨?_, ?_, ?_, rfl⟩ <;>
    simp only [submitTask, hsd, Bool.false_eq_true, if_false, if_pos hcond]
  exact dictDel_set_fresh m.tasks _ _ hfresh

/-- C4 (witness): the capacity theorem instantiated at a concrete manager
with capacity 1 and a full queue. -/
theorem claim_C4_witness :
    (submitTask exMgrFull "n" none [] 9).2
      = Except.error ⟨"RuntimeError", "任务队列已满"⟩
    ∧ (submitTask exMgrFull "n" none [] 9).1.tasks = exMgrFull.tasks
    ∧ (submitTask exMgrFull "n" none [] 9).1.queue = exMgrFull.queue
    ∧ submitSyncTask exMgrFull "f" "n" none [] 9
        = submitTask exMgrFull (if "n" = "" then "f" else "n") none [] 9 :=
  claim_C4_queue_full exMgrFull "n" "f" none [] 9 (by decide) (by decide) (by decide)
    (by decide)

/-- C5: when a task's coroutine raises, the exception is caught and stored
(status failed) — the manager-level execution step returns normally — and a
`wait_for_task` poll on the terminal task re-raises exactly the stored
exception object (same type and message); `get_task_error` merely returns
it. -/
theorem claim_C5_stored_error (m : AsyncTaskManager) (tid : TaskId) (t : AsyncTask)
    (e : PyException) (dur now : Nat)
    (hget : dictGet m.tasks tid = some t)
    (htime : ∀ τ, t.timeout = some τ → τ = 0 ∨ dur ≤ τ) :
    getTaskStatus (executeTask m tid (CoroutineBehavior.raises e dur) now) tid
      = some TaskStatus.failed
    ∧ getTaskError (executeTask m tid (CoroutineBehavior.raises e dur) now) tid = some e
    ∧ waitForTaskPoll (executeTask m tid (CoroutineBehavior.raises e dur) now) tid
      = some (Except.error e) := by
  obtain ⟨hs, he, hr⟩ := runTask_raises t e dur now htime
  simp only [executeTask, hget]
  have hg := dictGet_set_self m.tasks tid (runTask t (CoroutineBehavior.raises e dur) now)
  refine ⟨?_, ?_, ?_⟩
  · simp [getTaskStatus, hg, hs]
  · simp [getTaskError, hg, he]
  · simp [waitForTaskPoll, hg, hs, he, terminalStatuses]

/-- C5 (witness): the stored-error theorem instantiated at a concrete
manager whose task raises `ValueError("boom")`. -/
theorem claim_C5_witness :
    getTaskStatus (executeTask exMgrFull exTid
        (CoroutineBehavior.raises ⟨"ValueError", "boom"⟩ 1) 3) exTid
      = some TaskStatus.failed
    ∧ getTaskError (executeTask exMgrFull exTid
        (CoroutineBehavior.raises ⟨"ValueError", "boom"⟩ 1) 3) exTid
      = some ⟨"ValueError", "boom"⟩
    ∧ waitForTaskPoll (executeTask exMgrFull exTid
        (CoroutineBehavior.raises ⟨"ValueError", "boom"⟩ 1) 3) exTid
      = some (Except.error ⟨"ValueError", "boom"⟩) :=
  claim_C5_stored_error exMgrFull exTid exPendingTask ⟨"ValueError", "boom"⟩ 1 3
    (by decide) (by intro τ h; simp [exPendingTask] at h)

/-- C6: a task with a positive per-task timeout whose coroutine runs longer
reaches the terminal status `timeout` with a `TimeoutError` stored in place
of a result (the result stays `None`), and a `wait_for_task` poll raises that
timeout error rather than returning a value. -/
theorem claim_C6_timeout_state (m : AsyncTaskManager) (tid : TaskId) (t : AsyncTask)
    (beh : CoroutineBehavior) (τ now : Nat)
    (hget : dictGet m.tasks tid = some t)
    (ht : t.timeout = some τ) (hτ : 0 < τ) (hdur : τ < beh.duration)
    (hres : t.result = none) :
    getTaskStatus (executeTask m tid beh now) tid = some TaskStatus.timeout
    ∧ getTaskError (executeTask m tid beh now) tid
        = some ⟨"TimeoutError", "任务超时: " ++ toString τ ++ "秒"⟩
    ∧ getTaskResult (executeTask m tid beh now) tid = none
    ∧ waitForTaskPoll (executeTask m tid beh now) tid
        = some (Except.error ⟨"TimeoutError", "任务超时: " ++ toString τ ++ "秒"⟩) := by
  obtain ⟨hs, he, hr⟩ := runTask_timeout t beh τ now ht hτ hdur
  simp only [executeTask, hget]
  have hg := dictGet_set_self m.tasks tid (runTask t beh now)
  refine ⟨?_, ?_, ?_, ?_⟩
  · simp [getTaskStatus, hg, hs]
  · simp [getTaskError, hg, he]
  · simp [getTaskResult, hg, hr, hres]
  · simp [waitForTaskPoll, hg, hs, he, terminalStatuses]

/-- C6 (witness): the timeout theorem instantiated at a concrete manager
whose task has timeout 2 and runs for 5. -/
theorem claim_C6_witness :
    getTaskStatus (executeTask exMgrTimed exTid (CoroutineBehavior.returns "v" 5) 3) exTid
      = some TaskStatus.timeout
    ∧ getTaskError (executeTask exMgrTimed exTid (CoroutineBehavior.returns "v" 5) 3) exTid
      = some ⟨"TimeoutError", "任务超时: " ++ toString 2 ++ "秒"⟩
    ∧ getTaskResult (executeTask exMgrTimed exTid (CoroutineBehavior.returns "v" 5) 3) exTid
      = none
    ∧ waitForTaskPoll (executeTask exMgrTimed exTid (CoroutineBehavior.returns "v" 5) 3) exTid
      = some (Except.error ⟨"TimeoutError", "任务超时: " ++ toString 2 ++ "秒"⟩) :=
  claim_C6_timeout_state exMgrTimed exTid exTimedTask (CoroutineBehavior.returns "v" 5) 2 3
    (by decide) (by decide) (by decide) (by decide) (by decide)

/-- C7: for a well-formed pool (every pooled buffer has `chunk_size` bytes),
releasing a buffer of any length and then acquiring returns a buffer of
exactly `chunk_size` bytes; release preserves well-formedness and never grows
the pool beyond `max_chunks`. -/
theorem claim_C7_pool (p : ByteBufferPool) (bufferLen : Nat) (hwf : p.WellFormed) :
    ((p.release bufferLen).acquire).2 = p.chunkSize
    ∧ (p.release bufferLen).WellFormed
    ∧ (p.release bufferLen).acquire.1.WellFormed
    ∧ (p.pool.length ≤ p.maxChunks → (p.release bufferLen).pool.length ≤ p.maxChunks) := by
  unfold ByteBufferPool.release
  by_cases h : p.pool.length < p.maxChunks
  · rw [if_pos h]
    have hbc : (if bufferLen ≠ p.chunkSize then p.chunkSize else bufferLen) = p.chunkSize := by
      by_cases hbl : bufferLen ≠ p.chunkSize
      · simp [hbl]
      · push_neg at hbl
        simp [hbl]
    rw [hbc]
    have hwf2 : ∀ b ∈ p.chunkSize :: p.pool, b = p.chunkSize := by
      intro b hb
      rcases List.mem_cons.mp hb with h1 | h2
      · exact h1
      · exact hwf b h2
    refine ⟨by simp [ByteBufferPool.acquire], hwf2, ?_, ?_⟩
    · intro b hb
      exact hwf b hb
    · intro _
      simp only [List.length_cons]
      omega
  · rw [if_neg h]
    refine ⟨?_, hwf, ?_, fun hh => hh⟩
    · cases hp : p.pool with
      | nil => simp [ByteBufferPool.acquire, hp]
      | cons b rest =>
        simp [ByteBufferPool.acquire, hp]
        exact hwf b (by simp [hp])
    · cases hp : p.pool with
      | nil => simp [ByteBufferPool.acquire, hp]; exact hwf
      | cons b rest =>
        simp only [ByteBufferPool.acquire, hp]
        intro x hx
        exact hwf x (by simp [hp, List.mem_cons]; right; exact hx)

/-- C7 (witness): the pool theorem instantiated at a chunk-size-4 pool with a
released buffer of length 7. -/
theorem claim_C7_witness :
    ((exPool.release 7).acquire).2 = exPool.chunkSize :=
  (claim_C7_pool exPool 7 (by decide)).1


/-- C2: starting from a fresh breaker, `threshold` consecutive failing calls
all invoke the wrapped function and leave the breaker open; a further call
within `timeout` seconds of the last failure raises the breaker-open error
without invoking the function and changes nothing; once strictly more than
`timeout` seconds have elapsed, one trial call is let through (half-open):
on success the breaker closes with the failure counter reset, on failure it
reopens and calls within `timeout` of the new failure are blocked again. -/
theorem claim_C2_breaker (T τ : Nat) (ts : List Nat) (tN now1 now2 now3 : Nat) (b1 b3 : Bool)
    (_hT : 0 < T) (hlen : ts.length + 1 = T)
    (h1 : now1 ≤ tN + τ) (h2 : tN + τ < now2) (h3 : now3 ≤ now2 + τ) :
    ((CircuitBreaker.fresh T τ).runCalls ((ts ++ [tN]).map (fun t => (t, false)))).2
      = List.replicate T CBCallResult.failed
    ∧ ((CircuitBreaker.fresh T τ).runCalls ((ts ++ [tN]).map (fun t => (t, false)))).1.state
      = CBState.opened
    ∧ ((CircuitBreaker.fresh T τ).runCalls ((ts ++ [tN]).map (fun t => (t, false)))).1.failureCount = T
    ∧ ((CircuitBreaker.fresh T τ).runCalls ((ts ++ [tN]).map (fun t => (t, false)))).1.lastFailureTime = tN
    ∧ ((CircuitBreaker.fresh T τ).runCalls
        ((ts ++ [tN]).map (fun t => (t, false)))).1.call now1 b1
      = (((CircuitBreaker.fresh T τ).runCalls ((ts ++ [tN]).map (fun t => (t, false)))).1,
         CBCallResult.blockedOpen)
    ∧ (((CircuitBreaker.fresh T τ).runCalls
        ((ts ++ [tN]).map (fun t => (t, false)))).1.call now2 true).2 = CBCallResult.succeeded
    ∧ (((CircuitBreaker.fresh T τ).runCalls
        ((ts ++ [tN]).map (fun t => (t, false)))).1.call now2 true).1.state = CBState.closed
    ∧ (((CircuitBreaker.fresh T τ).runCalls
        ((ts ++ [tN]).map (fun t => (t, false)))).1.call now2 true).1.failureCount = 0
    ∧ (((CircuitBreaker.fresh T τ).runCalls
        ((ts ++ [tN]).map (fun t => (t, false)))).1.call now2 false).2 = CBCallResult.failed
    ∧ (((CircuitBreaker.fresh T τ).runCalls
        ((ts ++ [tN]).map (fun t => (t, false)))).1.call now2 false).1.state = CBState.opened
    ∧ ((((CircuitBreaker.fresh T τ).runCalls
        ((ts ++ [tN]).map (fun t => (t, false)))).1.call now2 false).1.call now3 b3).2
      = CBCallResult.blockedOpen := by
  have hfresh : (CircuitBreaker.fresh T τ).state = CBState.closed := rfl
  have hcnt : (CircuitBreaker.fresh T τ).failureCount + ts.length < (CircuitBreaker.fresh T τ).threshold := by
    simp [CircuitBreaker.fresh]
    omega
  obtain ⟨⟨hs, hc, hth, hto⟩, hres⟩ := runCalls_closed_fails ts (CircuitBreaker.fresh T τ)
    hfresh hcnt
  rw [List.map_append, List.map_singleton, runCalls_append]
  set cb1 := ((CircuitBreaker.fresh T τ).runCalls (ts.map fun t => (t, false))).1 with hcb1
  have hcall := call_closed_fail cb1 tN hs
  have hthr : cb1.threshold ≤ cb1.failureCount + 1 := by
    rw [hth, hc]
    simp [CircuitBreaker.fresh]
    omega
  rw [if_pos hthr] at hcall
  set cb2 : CircuitBreaker :=
    { cb1 with failureCount := cb1.failureCount + 1, lastFailureTime := tN,
               state := CBState.opened } with hcb2
  have hsingle : cb1.runCalls [(tN, false)] = (cb2, [CBCallResult.failed]) := by
    show ((cb1.call tN false).1, [(cb1.call tN false).2]) = (cb2, [CBCallResult.failed])
    rw [hcall]
  have hc2s : cb2.state = CBState.opened := rfl
  have hc2c : cb2.failureCount = T := by
    simp only [hcb2, hc, hth]
    simp [CircuitBreaker.fresh]
    omega
  have hc2to : cb2.timeout = τ := by
    simp only [hcb2]
    simp [hto, CircuitBreaker.fresh]
  have hc2lf : cb2.lastFailureTime = tN := rfl
  have hblocked : ∀ (now : Nat) (b : Bool), now ≤ tN + τ →
      cb2.call now b = (cb2, CBCallResult.blockedOpen) := by
    intro now b hnow
    rw [CircuitBreaker.call, if_pos ?_]
    refine ⟨hc2s, ?_⟩
    rw [hc2to, hc2lf]
    omega
  have hpass : ¬ (cb2.state = CBState.opened ∧ ¬ cb2.timeout < now2 - cb2.lastFailureTime) := by
    rw [hc2to, hc2lf]
    intro hh
    exact hh.2 (by omega)
  have htrialOk : cb2.call now2 true
      = ({ cb2 with state := CBState.closed, failureCount := 0 }, CBCallResult.succeeded) := by
    rw [CircuitBreaker.call, if_neg hpass, if_pos hc2s]
    simp
  have hc2thr : cb2.threshold ≤ cb2.failureCount + 1 := by
    have hh : cb2.threshold = cb1.threshold := rfl
    rw [hh, hth, hc2c]
    simp [CircuitBreaker.fresh]
  have htrialFail : cb2.call now2 false
      = ({ cb2 with state := CBState.opened, failureCount := cb2.failureCount + 1,
                    lastFailureTime := now2 }, CBCallResult.failed) := by
    rw [CircuitBreaker.call, if_neg hpass, if_pos hc2s]
    simp [hc2thr]
  rw [hsingle, hres]
  refine ⟨?_, hc2s, hc2c, hc2lf, ?_, ?_, ?_, ?_, ?_, ?_, ?_⟩
  · show List.replicate ts.length CBCallResult.failed ++ [CBCallResult.failed]
      = List.replicate T CBCallResult.failed
    rw [← hlen, List.replicate_succ']
  · show cb2.call now1 b1 = (cb2, CBCallResult.blockedOpen)
    exact hblocked now1 b1 h1
  · show (cb2.call now2 true).2 = CBCallResult.succeeded
    rw [htrialOk]
  · show (cb2.call now2 true).1.state = CBState.closed
    rw [htrialOk]
  · show (cb2.call now2 true).1.failureCount = 0
    rw [htrialOk]
  · show (cb2.call now2 false).2 = CBCallResult.failed
    rw [htrialFail]
  · show (cb2.call now2 false).1.state = CBState.opened
    rw [htrialFail]
  · show ((cb2.call now2 false).1.call now3 b3).2 = CBCallResult.blockedOpen
    rw [htrialFail]
    rw [CircuitBreaker.call, if_pos ?_]
    refine ⟨rfl, ?_⟩
    show ¬ cb2.timeout < now3 - now2
    rw [hc2to]
    omega


theorem pySplitAux_marker_tail :
    pySplitAux (compactionMarker ++ List.replicate 100000 ' ') [] = [['.', '.', '.']] := by
  rw [compactionMarker]
  rw [List.cons_append, pySplitAux, if_pos (by decide), if_pos (by decide)]
  rw [List.cons_append, pySplitAux, if_neg (by decide)]
  rw [List.cons_append, pySplitAux, if_neg (by decide)]
  rw [List.cons_append, pySplitAux, if_neg (by decide)]
  rw [List.cons_append, pySplitAux, if_pos (by decide), if_neg (by decide)]
  have := pySplitAux_spaces 100000 []
  rw [List.append_nil] at this
  rw [List.nil_append, this]
  rfl


/-- C2 (witness): the breaker theorem instantiated with threshold 2,
timeout 10, failures at times 1 and 2, a blocked call at time 5, trial calls
at time 13 and a blocked retry at time 20. -/
theorem claim_C2_witness :
    (((CircuitBreaker.fresh 2 10).runCalls ((([1] : List Nat) ++ [2]).map (fun t => (t, false)))).2
      = List.replicate 2 CBCallResult.failed)
    ∧ ((CircuitBreaker.fresh 2 10).runCalls ((([1] : List Nat) ++ [2]).map (fun t => (t, false)))).1.state
      = CBState.opened
    ∧ ((CircuitBreaker.fresh 2 10).runCalls ((([1] : List Nat) ++ [2]).map (fun t => (t, false)))).1.failureCount = 2
    ∧ ((CircuitBreaker.fresh 2 10).runCalls ((([1] : List Nat) ++ [2]).map (fun t => (t, false)))).1.lastFailureTime = 2
    ∧ ((CircuitBreaker.fresh 2 10).runCalls
        ((([1] : List Nat) ++ [2]).map (fun t => (t, false)))).1.call 5 true
      = (((CircuitBreaker.fresh 2 10).runCalls ((([1] : List Nat) ++ [2]).map (fun t => (t, false)))).1,
         CBCallResult.blockedOpen)
    ∧ (((CircuitBreaker.fresh 2 10).runCalls
        ((([1] : List Nat) ++ [2]).map (fun t => (t, false)))).1.call 13 true).2 = CBCallResult.succeeded
    ∧ (((CircuitBreaker.fresh 2 10).runCalls
        ((([1] : List Nat) ++ [2]).map (fun t => (t, false)))).1.call 13 true).1.state = CBState.closed
    ∧ (((CircuitBreaker.fresh 2 10).runCalls
        ((([1] : List Nat) ++ [2]).map (fun t => (t, false)))).1.call 13 true).1.failureCount = 0
    ∧ (((CircuitBreaker.fresh 2 10).runCalls
        ((([1] : List Nat) ++ [2]).map (fun t => (t, false)))).1.call 13 false).2 = CBCallResult.failed
    ∧ (((CircuitBreaker.fresh 2 10).runCalls
        ((([1] : List Nat) ++ [2]).map (fun t => (t, false)))).1.call 13 false).1.state = CBState.opened
    ∧ ((((CircuitBreaker.fresh 2 10).runCalls
        ((([1] : List Nat) ++ [2]).map (fun t => (t, false)))).1.call 13 false).1.call 20 false).2
      = CBCallResult.blockedOpen :=
  claim_C2_breaker 2 10 [1] 2 5 13 20 true false (by decide) (by decide) (by decide)
    (by decide) (by decide)


/-- C3 (counterexample): on the 400,000-character all-space input the output
is `"..."`, whose first characters are not the input's first 100,000
characters — the final whitespace normalization collapses them — so the claim
as stated fails. -/
theorem claim_C3_counterexample :
    normalizeLargeText (List.replicate 400000 ' ') 200000 = ['.', '.', '.']
    ∧ (List.replicate 400000 ' ').take 100000 = List.replicate 100000 ' '
    ∧ (normalizeLargeText (List.replicate 400000 ' ') 200000).take 100000
        ≠ (List.replicate 400000 ' ').take 100000 := by
  have htake : (List.replicate 400000 ' ').take 100000 = List.replicate 100000 ' ' := by
    rw [List.take_replicate, min_eq_left (by norm_num : (100000 : Nat) ≤ 400000)]
  have hdrop : List.drop (400000 - 100000) (List.replicate 400000 ' ')
      = List.replicate 100000 ' ' := by
    rw [List.drop_replicate]
  have hmain : normalizeLargeText (List.replicate 400000 ' ') 200000 = ['.', '.', '.'] := by
    rw [normalizeLargeText]
    simp only [List.length_replicate]
    rw [if_pos (by norm_num)]
    rw [htake, hdrop, pySplit, List.append_assoc, pySplitAux_spaces, pySplitAux_marker_tail]
    rfl
  refine ⟨hmain, htake, ?_⟩
  rw [hmain, htake]
  have ht3 : (['.', '.', '.'] : List Char).take 100000 = ['.', '.', '.'] := rfl
  rw [ht3]
  intro h
  have hlen2 := congrArg List.length h
  rw [List.length_replicate] at hlen2
  have h3 : List.length (['.', '.', '.'] : List Char) = 3 := rfl
  rw [h3] at hlen2
  omega


/-- C3 (amended): for every 400,000-character input, `normalize_large_text`
with the default `max_len` of 200,000 returns an output strictly shorter than
the input; when the input contains no whitespace the output is exactly the
first 100,000 characters and the last 100,000 characters joined by the
whitespace-normalized compaction marker `" ... "`.  (For inputs containing
whitespace the head and tail are further whitespace-normalized, so they are
not preserved verbatim.) -/
theorem claim_C3_amended (l : List Char) (hlen : l.length = 400000) :
    (normalizeLargeText l 200000).length < l.length
    ∧ ((∀ c ∈ l, pyIsSpace c = false) →
        normalizeLargeText l 200000
          = l.take 100000 ++ ' ' :: '.' :: '.' :: '.' :: ' ' :: l.drop 300000) := by
  have hunf : normalizeLargeText l 200000
      = joinWithSpace (pySplit (l.take 100000 ++ compactionMarker ++ l.drop 300000)) := by
    rw [normalizeLargeText, if_pos (by omega)]
    rw [hlen]
  have hheadlen : (l.take 100000).length = 100000 := by
    rw [List.length_take]
    omega
  have htaillen : (l.drop 300000).length = 100000 := by
    rw [List.length_drop]
    omega
  constructor
  · rw [hunf, pySplit]
    have hb := joinSplitAux_length (l.take 100000 ++ compactionMarker ++ l.drop 300000) []
    simp only [List.length_append, List.length_nil, Nat.add_zero, hheadlen, htaillen] at hb
    have hm : compactionMarker.length = 5 := rfl
    rw [hm] at hb
    omega
  · intro hw
    have hwhead : ∀ c ∈ l.take 100000, pyIsSpace c = false :=
      fun c hc => hw c (List.take_subset _ _ hc)
    have hwtail : ∀ c ∈ l.drop 300000, pyIsSpace c = false :=
      fun c hc => hw c (List.drop_subset _ _ hc)
    have hheadne : l.take 100000 ≠ [] := by
      intro hh
      rw [hh] at hheadlen
      simp at hheadlen
    have htailne : l.drop 300000 ≠ [] := by
      intro hh
      rw [hh] at htaillen
      simp at htaillen
    rw [hunf, pySplit, List.append_assoc]
    rw [pySplitAux_word _ _ _ hwhead]
    rw [List.append_nil, compactionMarker]
    rw [List.cons_append, pySplitAux, if_pos (by decide),
        if_neg (by simp [hheadne])]
    rw [List.reverse_reverse]
    have hdots : pySplitAux (['.', '.', '.', '\n'] ++ l.drop 300000) []
        = ['.', '.', '.'] :: pySplitAux (l.drop 300000) [] := by
      show pySplitAux ('.' :: '.' :: '.' :: '\n' :: l.drop 300000) []
        = ['.', '.', '.'] :: pySplitAux (l.drop 300000) []
      rw [pySplitAux, if_neg (by decide)]
      rw [pySplitAux, if_neg (by decide)]
      rw [pySplitAux, if_neg (by decide)]
      rw [pySplitAux, if_pos (by decide), if_neg (by decide)]
      rfl
    rw [hdots]
    have htailsplit : pySplitAux (l.drop 300000) [] = [l.drop 300000] := by
      have hword := pySplitAux_word (l.drop 300000) [] [] hwtail
      rw [List.append_nil, List.append_nil] at hword
      rw [hword, pySplitAux, if_neg (by simp [htailne])]
      rw [List.reverse_reverse]
    rw [htailsplit]
    show List.take 100000 l ++ ' ' :: (['.', '.', '.'] ++ ' ' :: l.drop 300000)
      = List.take 100000 l ++ ' ' :: '.' :: '.' :: '.' :: ' ' :: l.drop 300000
    simp

/-- C3 (witness): the amended theorem instantiated at 400,000 letters `a`. -/
theorem claim_C3_witness :
    (normalizeLargeText (List.replicate 400000 'a') 200000).length
      < (List.replicate 400000 'a').length
    ∧ normalizeLargeText (List.replicate 400000 'a') 200000
        = (List.replicate 400000 'a').take 100000
            ++ ' ' :: '.' :: '.' :: '.' :: ' ' :: (List.replicate 400000 'a').drop 300000 := by
  have h := claim_C3_amended (List.replicate 400000 'a') (by rw [List.length_replicate])
  exact ⟨h.1, h.2 (by intro c hc; rw [List.eq_of_mem_replicate hc]; rfl)⟩


/-- C8: in both ResponseCache variants a `get` for an entry at least `ttl`
seconds old returns `None` and removes the entry, while a `get` within `ttl`
seconds of insertion returns the stored payload and leaves the cache
unchanged (so the caller short-circuits the network call on a hit and makes
a live call again after the TTL elapsed). -/
theorem claim_C8_ttl (c : CPResponseCache) (a : APIResponseCache)
    (key akey data adata : String) (ts ats now1 now2 anow1 anow2 : Nat)
    (hc : dictGet c.cache key = some (data, ts))
    (hcn : (c.cache.map Prod.fst).Nodup)
    (hstale : c.ttl ≤ now1 - ts) (hfresh : now2 - ts < c.ttl)
    (ha : dictGet a.cache akey = some (adata, ats))
    (han : (a.cache.map Prod.fst).Nodup)
    (hastale : a.ttl ≤ anow1 - ats) (hafresh : anow2 - ats < a.ttl) :
    (cpCacheLookup c key now1).2 = none
    ∧ dictGet (cpCacheLookup c key now1).1.cache key = none
    ∧ cpCacheLookup c key now2 = (c, some data)
    ∧ (apiCacheLookup a akey anow1).2 = none
    ∧ dictGet (apiCacheLookup a akey anow1).1.cache akey = none
    ∧ apiCacheLookup a akey anow2 = (a, some adata) := by
  refine ⟨?_, ?_, ?_, ?_, ?_, ?_⟩
  · simp only [cpCacheLookup, hc]
    rw [if_neg (by omega)]
  · simp only [cpCacheLookup, hc]
    rw [if_neg (by omega)]
    exact dictGet_del_self c.cache key hcn
  · simp only [cpCacheLookup, hc]
    rw [if_pos (by omega)]
  · simp only [apiCacheLookup, ha]
    rw [if_neg (by omega)]
  · simp only [apiCacheLookup, ha]
    rw [if_neg (by omega)]
    exact dictGet_del_self a.cache akey han
  · simp only [apiCacheLookup, ha]
    rw [if_pos (by omega)]

/-- C8 (witness): the TTL theorem instantiated at concrete caches with TTL
10 and an entry stored at time 100, polled at times 110 (stale) and 105
(fresh). -/
theorem claim_C8_witness :
    (cpCacheLookup exCpCache "k" 110).2 = none
    ∧ dictGet (cpCacheLookup exCpCache "k" 110).1.cache "k" = none
    ∧ cpCacheLookup exCpCache "k" 105 = (exCpCache, some "v")
    ∧ (apiCacheLookup exApiCache "k" 110).2 = none
    ∧ dictGet (apiCacheLookup exApiCache "k" 110).1.cache "k" = none
    ∧ apiCacheLookup exApiCache "k" 105 = (exApiCache, some "v") :=
  claim_C8_ttl exCpCache exApiCache "k" "k" "v" "v" 100 100 110 105 110 105
    (by decide) (by decide) (by decide) (by decide) (by decide) (by decide)
    (by decide) (by decide)

/-- C9 (amended): the api_optimizer ResponseCache is capacity-bounded with
oldest-eviction — for `max_size ≥ 1`, `set` keeps the entry count at most
`max_size`, and a `set` of a fresh key at capacity evicts the entry with the
oldest insertion timestamp while storing the new one.  The
connection_pool_manager ResponseCache has no capacity bound at all. -/
theorem claim_C9_amended (c : APIResponseCache) (key data k0 : String) (ts0 now : Nat)
    (hmax : 1 ≤ c.maxSize)
    (hlen : c.cache.length ≤ c.maxSize)
    (hn : (c.cache.map Prod.fst).Nodup) :
    (apiCacheInsert c key data now).cache.length ≤ c.maxSize
    ∧ (c.cache.length = c.maxSize → oldestEntry c.cache = some (k0, ts0) → key ≠ k0 →
       dictGet c.cache key = none →
       dictGet (apiCacheInsert c key data now).cache k0 = none
       ∧ dictGet (apiCacheInsert c key data now).cache key = some (data, now)
       ∧ (apiCacheInsert c key data now).cache.length = c.maxSize) := by
  constructor
  · simp only [apiCacheInsert]
    by_cases hful : c.maxSize ≤ c.cache.length
    · rw [if_pos hful]
      have hne : c.cache ≠ [] := by
        intro hh
        rw [hh] at hful
        simp at hful
        omega
      obtain ⟨⟨k1, ts1⟩, hk1⟩ := Option.isSome_iff_exists.mp (oldestEntry_isSome c.cache hne)
      rw [hk1]
      obtain ⟨d1, hmem⟩ := oldestEntry_mem c.cache k1 ts1 hk1
      obtain ⟨w, hw⟩ := dictGet_isSome_of_mem hmem
      have hdel := dictDel_length_mem c.cache k1 w hw
      have hset := dictSet_length_le (dictDel c.cache k1) key (data, now)
      show (dictSet (dictDel c.cache k1) key (data, now)).length ≤ c.maxSize
      omega
    · rw [if_neg hful]
      have hset := dictSet_length_le c.cache key (data, now)
      omega
  · intro hcap hold hkk hfreshk
    simp only [apiCacheInsert]
    have hful : c.maxSize ≤ c.cache.length := le_of_eq hcap.symm
    rw [if_pos hful, hold]
    obtain ⟨d1, hmem⟩ := oldestEntry_mem c.cache k0 ts0 hold
    obtain ⟨w, hw⟩ := dictGet_isSome_of_mem hmem
    refine ⟨?_, dictGet_set_self _ _ _, ?_⟩
    · rw [dictGet_set_ne _ _ _ _ (Ne.symm hkk)]
      exact dictGet_del_self c.cache k0 hn
    · have hdel := dictDel_length_mem c.cache k0 w hw
      have hfresh2 : dictGet (dictDel c.cache k0) key = none :=
        dictGet_del_none c.cache k0 key hfreshk
      rw [dictSet_length_fresh _ _ _ hfresh2]
      omega

/-- C9 (witness): the bound/eviction theorem instantiated at a capacity-2
cache holding entries at timestamps 5 and 7; inserting a third key evicts the
oldest. -/
theorem claim_C9_witness :
    (apiCacheInsert exApiFull "c" "z" 9).cache.length ≤ exApiFull.maxSize
    ∧ dictGet (apiCacheInsert exApiFull "c" "z" 9).cache "a" = none
    ∧ dictGet (apiCacheInsert exApiFull "c" "z" 9).cache "c" = some ("z", 9)
    ∧ (apiCacheInsert exApiFull "c" "z" 9).cache.length = exApiFull.maxSize := by
  have h := claim_C9_amended exApiFull "c" "z" "a" 5 9 (by decide) (by decide) (by decide)
  have h2 := h.2 (by decide) (by decide) (by decide) (by decide)
  exact ⟨h.1, h2.1, h2.2.1, h2.2.2⟩

/-- C9 (counterexample): the connection-pool ResponseCache, which the claim
also covers, has no capacity parameter: 101 `set` calls with distinct URLs
leave 101 stored entries, exceeding 100 — the only configured response-cache
maximum in the repository (the api_optimizer default `max_size`). -/
theorem claim_C9_counterexample :
    cpUnboundedGrowth.cache.length = 101 ∧ 100 < cpUnboundedGrowth.cache.length := by
  decide

/-- C10 (counterexample): a request with only a `Cookie` header and a request
with no headers agree on every selected header (there are none), yet their
generated keys differ in both variants, so the key is not a function of the
selected components alone. -/
theorem claim_C10_counterexample :
    cpImportantHeaders [("Cookie", "x")] = cpImportantHeaders []
    ∧ apiImportantHeaders [("Cookie", "x")] = apiImportantHeaders []
    ∧ cpGenerateKey "GET" "http://e" none (some [("Cookie", "x")])
        ≠ cpGenerateKey "GET" "http://e" none none
    ∧ apiGenerateCacheKey (fun d => d) "GET" "http://e" none (some [("Cookie", "x")]) none
        ≠ apiGenerateCacheKey (fun d => d) "GET" "http://e" none none none := by
  refine ⟨rfl, rfl, ?_, ?_⟩ <;> decide

/-- C10 (amended): for two requests whose headers dicts are both non-empty
and whose case-insensitively selected headers agree, the generated cache keys
are equal even if all other headers differ — in both cache-key variants and
for every payload-hash function.  (When exactly one of the two header dicts
is empty the keys differ, because a non-empty dict contributes a key
component even when no selected header survives the filter.) -/
theorem claim_C10_amended (method url : String)
    (params : Option (List (String × String))) (data : Option String)
    (dataHash : String → String) (h1 h2 : List (String × String))
    (hne1 : h1 ≠ []) (hne2 : h2 ≠ [])
    (hcp : sortPairs (cpImportantHeaders h1) = sortPairs (cpImportantHeaders h2))
    (hapi : sortPairs (apiImportantHeaders h1) = sortPairs (apiImportantHeaders h2)) :
    cpGenerateKey method url params (some h1) = cpGenerateKey method url params (some h2)
    ∧ apiGenerateCacheKey dataHash method url params (some h1) data
      = apiGenerateCacheKey dataHash method url params (some h2) data := by
  have he1 : h1.isEmpty = false := by
    rw [List.isEmpty_eq_false]
    exact hne1
  have he2 : h2.isEmpty = false := by
    rw [List.isEmpty_eq_false]
    exact hne2
  constructor
  · simp only [cpGenerateKey, he1, he2, Bool.false_eq_true, if_false, hcp]
  · simp only [apiGenerateCacheKey, he1, he2, Bool.false_eq_true, if_false, hapi]

/-- C10 (witness): the key-equality theorem instantiated at two header dicts
sharing the same Accept header but differing in `Cookie` / `X-Trace`
headers. -/
theorem claim_C10_witness :
    cpGenerateKey "GET" "u" none (some [("Accept", "json"), ("Cookie", "secret")])
      = cpGenerateKey "GET" "u" none (some [("Accept", "json"), ("X-Trace", "42")])
    ∧ apiGenerateCacheKey (fun d => d) "GET" "u" none
        (some [("Accept", "json"), ("Cookie", "secret")]) none
      = apiGenerateCacheKey (fun d => d) "GET" "u" none
        (some [("Accept", "json"), ("X-Trace", "42")]) none :=
  claim_C10_amended "GET" "u" none none (fun d => d)
    [("Accept", "json"), ("Cookie", "secret")] [("Accept", "json"), ("X-Trace", "42")]
    (by decide) (by decide) (by decide) (by decide)

end AIWriteX
